import Mathlib

/-!
Verification development for the catalog engine of QMediathekView
(src/database.cpp). The C++ code is shallowly embedded: std::string is a
list of characters, boost dates/times/durations are natural numbers (only
their total order matters to the code), std::sort is modelled as a
deterministic comparator-respecting sort, and the asynchronous update
machinery is modelled as an explicit state machine whose external effects
(the parser verdict and the save verdict) are parameters.
-/

namespace QMediathekView

/-- Model of std::string: a finite sequence of characters. -/
abbrev Str := List Char

/-- Model of boost::to_lower applied to a std::string: per-character ASCII
case folding, as performed by the default locale. -/
def strToLower (s : Str) : Str := s.map Char.toLower

/-- Model of s.find(key) != std::string::npos: key occurs in s as a
contiguous substring (an empty key always occurs, at position 0). -/
def containsSubstr (s key : Str) : Bool :=
  (List.range (s.length + 1)).any fun i => (s.drop i).take key.length == key

/-- Model of the Show record (fields and their serialization order are
taken from boost::serialization::serialize in src/database.cpp; the header
declaring the struct is not part of the sources). Dates, times and
durations are modelled by naturals since the code only compares them. -/
structure Show where
  channel : Str
  topic : Str
  title : Str
  date : Nat
  time : Nat
  duration : Nat
  description : Str
  website : Str
  url : Str
  urlSmallOffset : Nat
  urlSmallSuffix : Str
  urlLargeOffset : Nat
  urlLargeSuffix : Str
deriving DecidableEq, Repr, Inhabited

/-- Database::SortOrder. -/
inductive SortOrder where
  | SortAscending
  | SortDescending
deriving DecidableEq, Repr

/-- Database::SortColumn. -/
inductive SortColumn where
  | SortChannel
  | SortTopic
  | SortTitle
  | SortDate
  | SortTime
  | SortDuration
deriving DecidableEq, Repr

/-- Lexicographic comparison of two (string, date, time) triples, the
result of comparing two std::tie triples with operator<. -/
def tieLT (c1 : Str) (d1 t1 : Nat) (c2 : Str) (d2 t2 : Nat) : Bool :=
  decide (c1 < c2) ||
    (decide (c1 = c2) && (decide (d1 < d2) || (decide (d1 = d2) && decide (t1 < t2))))

/-- The comparator of Database::Data::sort: on the left the left-hand
channel is tied with the right-hand date and time, so records sort by
channel ascending with ties by air date/time descending. -/
def showLT (lhs rhs : Show) : Bool :=
  tieLT lhs.channel rhs.date rhs.time rhs.channel lhs.date lhs.time

/-- Model of std::sort with a strict comparator lt: a permutation of the
input in which no earlier element is lt-greater than a later one. The
model fixes the (stable) insertion sort with respect to the non-strict
relation fun a b => lt b a = false; any output std::sort may produce is
sorted with respect to that same relation. -/
def stdSort (lt : α → α → Bool) (l : List α) : List α :=
  List.insertionSort (fun a b => lt b a = false) l

/-- Database::Data::sort: bring the record list into canonical order. -/
def sortShows (shows : List Show) : List Show :=
  stdSort showLT shows

/-- Strict lexicographic order on strings used for the channels vector. -/
def strLT (a b : Str) : Bool := decide (a < b)

/-- std::pair operator<: lexicographic order on (string, string) pairs. -/
def pairLT (a b : Str × Str) : Bool :=
  decide (a.1 < b.1) || (decide (a.1 = b.1) && decide (a.2 < b.2))

/-- Model of std::lower_bound on a sorted vector followed by insertion
when the element is not already present (the two insertion blocks of
Database::Data::index). -/
def insertUnique (lt : α → α → Bool) [DecidableEq α] (x : α) : List α → List α
  | [] => [x]
  | y :: ys =>
    if lt y x then y :: insertUnique lt x ys
    else if y = x then y :: ys
    else x :: y :: ys

/-- Model of Database::Data: the record list plus the five derived
vectors (three case-folded parallel search sequences, the sorted unique
channel list, and the sorted unique (case-folded channel, topic) list). -/
structure Data where
  shows : List Show := []
  showsByChannel : List Str := []
  showsByTopic : List Str := []
  showsByTitle : List Str := []
  channels : List Str := []
  topics : List (Str × Str) := []
deriving DecidableEq, Repr, Inhabited

/-- The body of the loop of Database::Data::index for one show. -/
def indexStep (d : Data) (s : Show) : Data :=
  { d with
    showsByTopic := d.showsByTopic ++ [strToLower s.topic]
    showsByChannel := d.showsByChannel ++ [strToLower s.channel]
    showsByTitle := d.showsByTitle ++ [strToLower s.title]
    channels := insertUnique strLT s.channel d.channels
    topics := insertUnique pairLT (strToLower s.channel, s.topic) d.topics }

/-- Database::Data::index: clear the derived vectors and rebuild them by
one pass over the record list. -/
def indexShows (shows : List Show) : Data :=
  shows.foldl indexStep { shows := shows }

/-- Database::Transaction::commit: sort the accumulated records into
canonical order, then rebuild the derived structures. -/
def commit (records : List Show) : Data :=
  indexShows (sortShows records)

/-- Element access into the parallel string vectors (showsByKey.at(i)). -/
def strAt (l : List Str) (i : Nat) : Str := l.getD i []

/-- Element access into the record vector (shows.at(i)). -/
def showAt (shows : List Show) (i : Nat) : Show := shows.getD i default

/-- The anonymous-namespace collect function: push every index whose key
string contains the key as a substring, in increasing index order. -/
def collect (showsByKey : List Str) (key : Str) : List Nat :=
  (List.range showsByKey.length).filter fun i => containsSubstr (strAt showsByKey i) key

/-- The anonymous-namespace filter function: with an empty key do nothing,
otherwise erase every id whose key string does not contain the key. -/
def filterIds (showsByKey : List Str) (key : Str) (id : List Nat) : List Nat :=
  if key.isEmpty then id
  else id.filter fun i => containsSubstr (strAt showsByKey i) key

/-- The comparator of the anonymous-namespace sort function applied to
ids: compare the member of the two shows per the sort order. -/
def memberLT (member : Show → Nat) (sortOrder : SortOrder) (shows : List Show)
    (lhs rhs : Nat) : Bool :=
  match sortOrder with
  | .SortAscending => decide (member (showAt shows lhs) < member (showAt shows rhs))
  | .SortDescending => decide (member (showAt shows rhs) < member (showAt shows lhs))

/-- The anonymous-namespace sort function. -/
def sortIds (member : Show → Nat) (sortOrder : SortOrder) (shows : List Show)
    (id : List Nat) : List Nat :=
  stdSort (memberLT member sortOrder shows) id

/-- The comparator of chronologicalSort applied to ids: the key string of
one side is tied with the date and time of the other side. -/
def chronoLT (showsByKey : List Str) (sortOrder : SortOrder) (shows : List Show)
    (lhs rhs : Nat) : Bool :=
  match sortOrder with
  | .SortAscending =>
    tieLT (strAt showsByKey lhs) (showAt shows rhs).date (showAt shows rhs).time
      (strAt showsByKey rhs) (showAt shows lhs).date (showAt shows lhs).time
  | .SortDescending =>
    tieLT (strAt showsByKey rhs) (showAt shows rhs).date (showAt shows rhs).time
      (strAt showsByKey lhs) (showAt shows lhs).date (showAt shows lhs).time

/-- The anonymous-namespace chronologicalSort function. -/
def chronologicalSort (showsByKey : List Str) (sortOrder : SortOrder) (shows : List Show)
    (id : List Nat) : List Nat :=
  stdSort (chronoLT showsByKey sortOrder shows) id

/-- The candidate-collection phase of Database::query: case-fold the three
filters, then collect by the first non-empty filter in the priority
channel, topic, title and filter by the remaining two; with all three
filters empty, every id in snapshot order. -/
def queryCandidates (d : Data) (channel topic title : Str) : List Nat :=
  let channel := strToLower channel
  let topic := strToLower topic
  let title := strToLower title
  if !channel.isEmpty then
    filterIds d.showsByTitle title (filterIds d.showsByTopic topic (collect d.showsByChannel channel))
  else if !topic.isEmpty then
    filterIds d.showsByTitle title (filterIds d.showsByChannel channel (collect d.showsByTopic topic))
  else if !title.isEmpty then
    filterIds d.showsByTopic topic (filterIds d.showsByChannel channel (collect d.showsByTitle title))
  else
    List.range d.shows.length

/-- Database::query: candidate collection followed by the sort switch.
Ascending sort by channel leaves the candidate list untouched. -/
def query (d : Data) (channel topic title : Str)
    (sortColumn : SortColumn) (sortOrder : SortOrder) : List Nat :=
  let id := queryCandidates d channel topic title
  match sortColumn, sortOrder with
  | .SortChannel, .SortAscending => id
  | .SortChannel, .SortDescending => chronologicalSort d.showsByChannel .SortDescending d.shows id
  | .SortTopic, _ => chronologicalSort d.showsByTopic sortOrder d.shows id
  | .SortTitle, _ => chronologicalSort d.showsByTitle sortOrder d.shows id
  | .SortDate, _ => sortIds Show.date sortOrder d.shows id
  | .SortTime, _ => sortIds Show.time sortOrder d.shows id
  | .SortDuration, _ => sortIds Show.duration sortOrder d.shows id

/-- Database::show: m_data->shows.at(id), whose out-of-range failure is
modelled as none. -/
def showRecord (d : Data) (id : Nat) : Option Show := d.shows[id]?

/-- Database::FullUpdate: the accumulation buffer starts empty and every
parsed record is appended in order. -/
def FullUpdateRun (incoming : List Show) : List Show :=
  incoming.foldl (fun acc s => acc ++ [s]) []

/-- The (title, url, channel, topic) key comparison of
Database::PartialUpdate::operator(). -/
def sameKey (newShow oldShow : Show) : Bool :=
  newShow.title == oldShow.title && newShow.url == oldShow.url &&
    newShow.channel == oldShow.channel && newShow.topic == oldShow.topic

/-- Database::PartialUpdate::operator(): replace the first record with an
equal (title, url, channel, topic) key in place, else append. -/
def mergeRecord : List Show → Show → List Show
  | [], newShow => [newShow]
  | oldShow :: rest, newShow =>
    if sameKey newShow oldShow then newShow :: rest
    else oldShow :: mergeRecord rest newShow

/-- Database::PartialUpdate: the accumulation buffer starts as a copy of
the record list of the data current at transaction start, and each
incoming record is merged into it. -/
def PartialUpdateRun (d : Data) (incoming : List Show) : List Show :=
  incoming.foldl mergeRecord d.shows

/-- Trace of one run of the background worker lambda of Database::update:
the record list handed to Transaction::save (none when save is never
reached) and the DataPtr handed back to the store (none models a null
DataPtr). -/
structure RunTrace where
  saveArg : Option (List Show)
  result : Option Data
deriving DecidableEq, Repr

/-- The background worker lambda of Database::update. The external parser
verdict and the save verdict are parameters; records is the accumulation
buffer of the transaction after a successful parse. On parse failure the
lambda returns a null DataPtr before save is reached; otherwise save is
called with m_data->shows as it stands before commit, and only after a
successful save is commit executed and its data returned. -/
def updateRun (records : List Show) (parseOk saveOk : Bool) : RunTrace :=
  if !parseOk then { saveArg := none, result := none }
  else
    { saveArg := some records
      result := if saveOk then some (commit records) else none }

/-- An update job scheduled on the worker: the accumulation buffer the
transaction will have after parsing, and the two external verdicts. -/
structure UpdateJob where
  records : List Show
  parseOk : Bool
  saveOk : Bool
deriving DecidableEq, Repr

/-- Model of the Database object state: the current data snapshot and the
in-flight update job, if any (m_update.isRunning()). -/
structure Store where
  catalog : Data
  inFlight : Option UpdateJob
deriving DecidableEq, Repr

/-- The signals the Database object emits. -/
inductive Signal where
  | updated
  | failedToUpdate (reason : String)
deriving DecidableEq, Repr

/-- Database::update entry point: while an update is running the request
returns immediately with no effect; otherwise the job is scheduled. No
signal is emitted either way. -/
def requestUpdate (s : Store) (job : UpdateJob) : Store × List Signal :=
  if s.inFlight.isSome then (s, [])
  else ({ s with inFlight := some job }, [])

/-- Database::fullUpdate: schedule a FullUpdate transaction. -/
def requestFullUpdate (s : Store) (incoming : List Show) (parseOk saveOk : Bool) :
    Store × List Signal :=
  requestUpdate s { records := FullUpdateRun incoming, parseOk := parseOk, saveOk := saveOk }

/-- Database::partialUpdate: schedule a PartialUpdate transaction seeded
from the current data. -/
def requestPartialUpdate (s : Store) (incoming : List Show) (parseOk saveOk : Bool) :
    Store × List Signal :=
  requestUpdate s { records := PartialUpdateRun s.catalog incoming, parseOk := parseOk, saveOk := saveOk }

/-- Database::updateReady: a null result emits failedToUpdate with the
fixed reason string and leaves m_data untouched; otherwise the new data is
swapped in and updated is emitted. The future is finished either way. -/
def updateReady (s : Store) (result : Option Data) : Store × List Signal :=
  match result with
  | none => ({ s with inFlight := none }, [Signal.failedToUpdate "Failed to parse or save data."])
  | some d => ({ catalog := d, inFlight := none }, [Signal.updated])

/-- Completion of the in-flight job, if any: run the worker lambda and
deliver its result through updateReady. -/
def completeInFlight (s : Store) : Store × List Signal :=
  match s.inFlight with
  | none => (s, [])
  | some job => updateReady s (updateRun job.records job.parseOk job.saveOk).result

/-- A record with the given channel and air date/time and empty remaining
fields, used as concrete test input. -/
def mkShow (channel : Str) (date time : Nat) : Show :=
  { channel := channel, topic := [], title := [], date := date, time := time,
    duration := 0, description := [], website := [], url := [],
    urlSmallOffset := 0, urlSmallSuffix := [], urlLargeOffset := 0, urlLargeSuffix := [] }

/-- A record with an upper-case channel: in case-sensitive byte order it
sorts before a lower-case one, after case folding it sorts after. -/
def showUpperB : Show := mkShow ['B'] 0 0

/-- A record with the lower-case channel a. -/
def showLowerA : Show := mkShow ['a'] 0 0

/-- A record with the lower-case channel b. -/
def showLowerB : Show := mkShow ['b'] 0 0

/-! ### Sort keys and spec-facing descriptions of the orders -/

/-- The sort key realized by the canonical comparator: channel ascending,
then air date descending, then air time descending. -/
def canonKey (s : Show) : Lex (Str × Lex (OrderDual Nat × OrderDual Nat)) :=
  toLex (s.channel, toLex (OrderDual.toDual s.date, OrderDual.toDual s.time))

/-- The sort key realized by the chronological comparator at id i. -/
def chronoKey (showsByKey : List Str) (shows : List Show) (i : Nat) :
    Lex (Str × Lex (OrderDual Nat × OrderDual Nat)) :=
  toLex (strAt showsByKey i,
    toLex (OrderDual.toDual (showAt shows i).date, OrderDual.toDual (showAt shows i).time))

/-- The sort key realized by the descending chronological comparator: the
primary key is dualized but the date/time tie-break keeps the same
(descending) direction as in the ascending case. -/
def chronoKeyDesc (showsByKey : List Str) (shows : List Show) (i : Nat) :
    Lex (OrderDual Str × Lex (OrderDual Nat × OrderDual Nat)) :=
  toLex (OrderDual.toDual (strAt showsByKey i),
    toLex (OrderDual.toDual (showAt shows i).date, OrderDual.toDual (showAt shows i).time))

/-- Record a strictly precedes record b in canonical order: channel
ascending (case-sensitive), ties by air date then air time descending. -/
def CanonBefore (a b : Show) : Prop :=
  a.channel < b.channel ∨
    (a.channel = b.channel ∧ (b.date < a.date ∨ (b.date = a.date ∧ b.time < a.time)))

/-- Non-strict canonical order: strictly before, or equal on the whole
(channel, date, time) sort key. -/
def CanonLE (a b : Show) : Prop :=
  CanonBefore a b ∨ (a.channel = b.channel ∧ a.date = b.date ∧ a.time = b.time)

/-- Strict lexicographic order on (string, string) pairs, spelled out. -/
def PairBefore (p q : Str × Str) : Prop :=
  p.1 < q.1 ∨ (p.1 = q.1 ∧ p.2 < q.2)

/-! ### Order characterizations -/

/-- The triple comparison is the lexicographic order spelled out. -/
theorem tieLT_iff (c1 : Str) (d1 t1 : Nat) (c2 : Str) (d2 t2 : Nat) :
    tieLT c1 d1 t1 c2 d2 t2 = true ↔
      c1 < c2 ∨ (c1 = c2 ∧ (d1 < d2 ∨ (d1 = d2 ∧ t1 < t2))) := by
  simp [tieLT]



theorem showLT_iff_key (a b : Show) : showLT a b = true ↔ canonKey a < canonKey b := by
  rw [showLT, tieLT_iff, canonKey, canonKey, Prod.Lex.lt_iff, Prod.Lex.lt_iff]
  simp [eq_comm]



theorem chronoLT_asc_iff_key (showsByKey : List Str) (shows : List Show) (i j : Nat) :
    chronoLT showsByKey .SortAscending shows i j = true ↔
      chronoKey showsByKey shows i < chronoKey showsByKey shows j := by
  rw [chronoLT, tieLT_iff, chronoKey, chronoKey, Prod.Lex.lt_iff, Prod.Lex.lt_iff]
  simp [eq_comm]



theorem chronoLT_desc_iff_key (showsByKey : List Str) (shows : List Show) (i j : Nat) :
    chronoLT showsByKey .SortDescending shows i j = true ↔
      chronoKeyDesc showsByKey shows i < chronoKeyDesc showsByKey shows j := by
  rw [chronoLT, tieLT_iff, chronoKeyDesc, chronoKeyDesc, Prod.Lex.lt_iff, Prod.Lex.lt_iff]
  simp [eq_comm]

theorem memberLT_asc_iff_key (member : Show → Nat) (shows : List Show) (i j : Nat) :
    memberLT member .SortAscending shows i j = true ↔
      member (showAt shows i) < member (showAt shows j) := by
  simp [memberLT]

theorem memberLT_desc_iff_key (member : Show → Nat) (shows : List Show) (i j : Nat) :
    memberLT member .SortDescending shows i j = true ↔
      member (showAt shows j) < member (showAt shows i) := by
  simp [memberLT]

/-! ### Generic facts about the std::sort model -/

theorem stdSort_perm (lt : α → α → Bool) (l : List α) : (stdSort lt l).Perm l :=
  List.perm_insertionSort _ l

theorem stdSort_length (lt : α → α → Bool) (l : List α) : (stdSort lt l).length = l.length :=
  (stdSort_perm lt l).length_eq

theorem stdSort_mem (lt : α → α → Bool) (l : List α) (a : α) :
    a ∈ stdSort lt l ↔ a ∈ l :=
  (stdSort_perm lt l).mem_iff

/-- Rewriting the non-strict sorting relation through a key embedding. -/
theorem stdSort_rel_iff {κ : Type} [LinearOrder κ] (k : α → κ) (lt : α → α → Bool)
    (hk : ∀ a b, lt a b = true ↔ k a < k b) (a b : α) :
    (lt b a = false) ↔ k a ≤ k b := by
  rw [← Bool.not_eq_true, hk, not_lt]

theorem stdSort_sorted {κ : Type} [LinearOrder κ] (k : α → κ) (lt : α → α → Bool)
    (hk : ∀ a b, lt a b = true ↔ k a < k b) (l : List α) :
    List.Sorted (fun a b => lt b a = false) (stdSort lt l) := by
  haveI : IsTotal α (fun a b => lt b a = false) :=
    ⟨fun a b => by
      rw [stdSort_rel_iff k lt hk, stdSort_rel_iff k lt hk]
      exact le_total (k a) (k b)⟩
  haveI : IsTrans α (fun a b => lt b a = false) :=
    ⟨fun a b c hab hbc => by
      rw [stdSort_rel_iff k lt hk] at hab hbc ⊢
      exact le_trans hab hbc⟩
  exact List.sorted_insertionSort _ l

theorem stdSort_eq_of_sorted (lt : α → α → Bool) (l : List α)
    (h : List.Sorted (fun a b => lt b a = false) l) : stdSort lt l = l :=
  h.insertionSort_eq

/-! ### Facts about insertion into the sorted unique vectors -/

theorem mem_insertUnique (lt : α → α → Bool) [DecidableEq α] (x z : α) (l : List α) :
    z ∈ insertUnique lt x l ↔ z = x ∨ z ∈ l := by
  induction l with
  | nil => simp [insertUnique]
  | cons y ys ih =>
    rw [insertUnique]
    split_ifs with h1 h2
    · simp only [List.mem_cons, ih]
      tauto
    · subst h2
      simp only [List.mem_cons]
      tauto
    · simp only [List.mem_cons]

theorem pairwise_insertUnique {κ : Type} [LinearOrder κ] (k : α → κ)
    (hinj : ∀ a b, k a = k b → a = b) (lt : α → α → Bool) [DecidableEq α]
    (hk : ∀ a b, lt a b = true ↔ k a < k b) (x : α) (l : List α)
    (h : l.Pairwise fun a b => k a < k b) :
    (insertUnique lt x l).Pairwise fun a b => k a < k b := by
  induction l with
  | nil => simp [insertUnique]
  | cons y ys ih =>
    rw [List.pairwise_cons] at h
    obtain ⟨hy, hys⟩ := h
    rw [insertUnique]
    split_ifs with h1 h2
    · rw [List.pairwise_cons]
      refine ⟨fun z hz => ?_, ih hys⟩
      rcases (mem_insertUnique lt x z ys).mp hz with rfl | hz
      · exact (hk y z).mp h1
      · exact hy z hz
    · exact List.Pairwise.cons hy hys
    · have hxy : k x < k y := by
        rcases lt_trichotomy (k x) (k y) with h | h | h
        · exact h
        · exact absurd (hinj x y h) (Ne.symm h2)
        · exact absurd ((hk y x).mpr h) (by simpa using h1)
      rw [List.pairwise_cons]
      refine ⟨fun z hz => ?_, List.Pairwise.cons hy hys⟩
      rcases List.mem_cons.mp hz with rfl | hz
      · exact hxy
      · exact lt_trans hxy (hy z hz)

theorem strLT_iff_key (a b : Str) : strLT a b = true ↔ a < b := by
  simp [strLT]

theorem pairLT_iff_key (a b : Str × Str) : pairLT a b = true ↔ toLex a < toLex b := by
  rw [pairLT, Prod.Lex.lt_iff]
  simp

/-! ### Invariants of the indexing pass -/

theorem foldl_indexStep_shows (l : List Show) (d : Data) :
    (l.foldl indexStep d).shows = d.shows := by
  induction l generalizing d with
  | nil => rfl
  | cons s tl ih => rw [List.foldl_cons, ih]; rfl

theorem foldl_indexStep_byChannel (l : List Show) (d : Data) :
    (l.foldl indexStep d).showsByChannel =
      d.showsByChannel ++ l.map fun s => strToLower s.channel := by
  induction l generalizing d with
  | nil => simp
  | cons s tl ih =>
    rw [List.foldl_cons, ih, List.map_cons]
    simp [indexStep]

theorem foldl_indexStep_byTopic (l : List Show) (d : Data) :
    (l.foldl indexStep d).showsByTopic =
      d.showsByTopic ++ l.map fun s => strToLower s.topic := by
  induction l generalizing d with
  | nil => simp
  | cons s tl ih =>
    rw [List.foldl_cons, ih, List.map_cons]
    simp [indexStep]

theorem foldl_indexStep_byTitle (l : List Show) (d : Data) :
    (l.foldl indexStep d).showsByTitle =
      d.showsByTitle ++ l.map fun s => strToLower s.title := by
  induction l generalizing d with
  | nil => simp
  | cons s tl ih =>
    rw [List.foldl_cons, ih, List.map_cons]
    simp [indexStep]

theorem foldl_indexStep_channels_mem (l : List Show) (d : Data) (c : Str) :
    c ∈ (l.foldl indexStep d).channels ↔
      c ∈ d.channels ∨ c ∈ l.map Show.channel := by
  induction l generalizing d with
  | nil => simp
  | cons s tl ih =>
    rw [List.foldl_cons, ih]
    simp only [indexStep, List.map_cons, List.mem_cons]
    rw [mem_insertUnique]
    tauto

theorem foldl_indexStep_topics_mem (l : List Show) (d : Data) (p : Str × Str) :
    p ∈ (l.foldl indexStep d).topics ↔
      p ∈ d.topics ∨ p ∈ l.map fun s => (strToLower s.channel, s.topic) := by
  induction l generalizing d with
  | nil => simp
  | cons s tl ih =>
    rw [List.foldl_cons, ih]
    simp only [indexStep, List.map_cons, List.mem_cons]
    rw [mem_insertUnique]
    tauto

theorem foldl_indexStep_channels_pairwise (l : List Show) (d : Data)
    (h : d.channels.Pairwise (· < ·)) :
    (l.foldl indexStep d).channels.Pairwise (· < ·) := by
  induction l generalizing d with
  | nil => exact h
  | cons s tl ih =>
    rw [List.foldl_cons]
    refine ih _ ?_
    exact pairwise_insertUnique id (fun _ _ hab => hab) strLT strLT_iff_key s.channel _ h

theorem foldl_indexStep_topics_pairwise (l : List Show) (d : Data)
    (h : d.topics.Pairwise fun p q => toLex p < toLex q) :
    (l.foldl indexStep d).topics.Pairwise fun p q => toLex p < toLex q := by
  induction l generalizing d with
  | nil => exact h
  | cons s tl ih =>
    rw [List.foldl_cons]
    refine ih _ ?_
    exact pairwise_insertUnique toLex (fun _ _ hab => hab) pairLT pairLT_iff_key _ _ h

/-! ### Characterization of commit -/

theorem commit_shows (records : List Show) : (commit records).shows = sortShows records := by
  rw [commit, indexShows, foldl_indexStep_shows]

theorem commit_perm (records : List Show) : (commit records).shows.Perm records := by
  rw [commit_shows]
  exact stdSort_perm _ _

theorem commit_sorted (records : List Show) :
    List.Sorted (fun a b => showLT b a = false) (commit records).shows := by
  rw [commit_shows]
  exact stdSort_sorted canonKey showLT showLT_iff_key records

theorem commit_byChannel (records : List Show) :
    (commit records).showsByChannel = (commit records).shows.map fun s => strToLower s.channel := by
  rw [commit_shows, commit, indexShows, foldl_indexStep_byChannel]
  rfl

theorem commit_byTopic (records : List Show) :
    (commit records).showsByTopic = (commit records).shows.map fun s => strToLower s.topic := by
  rw [commit_shows, commit, indexShows, foldl_indexStep_byTopic]
  rfl

theorem commit_byTitle (records : List Show) :
    (commit records).showsByTitle = (commit records).shows.map fun s => strToLower s.title := by
  rw [commit_shows, commit, indexShows, foldl_indexStep_byTitle]
  rfl

theorem commit_channels_mem (records : List Show) (c : Str) :
    c ∈ (commit records).channels ↔ c ∈ (commit records).shows.map Show.channel := by
  rw [commit_shows, commit, indexShows, foldl_indexStep_channels_mem]
  simp

theorem commit_topics_mem (records : List Show) (p : Str × Str) :
    p ∈ (commit records).topics ↔
      p ∈ (commit records).shows.map fun s => (strToLower s.channel, s.topic) := by
  rw [commit_shows, commit, indexShows, foldl_indexStep_topics_mem]
  simp

theorem commit_channels_pairwise (records : List Show) :
    (commit records).channels.Pairwise (· < ·) := by
  rw [commit, indexShows]
  exact foldl_indexStep_channels_pairwise _ _ (by simp)

theorem commit_topics_pairwise (records : List Show) :
    (commit records).topics.Pairwise fun p q => toLex p < toLex q := by
  rw [commit, indexShows]
  exact foldl_indexStep_topics_pairwise _ _ (by simp)

/-! ### Spec-facing descriptions of the orders -/



theorem canonKey_lt_iff (a b : Show) : canonKey a < canonKey b ↔ CanonBefore a b := by
  rw [← showLT_iff_key, showLT, tieLT_iff, CanonBefore]

theorem canonKey_eq_iff (a b : Show) :
    canonKey a = canonKey b ↔ a.channel = b.channel ∧ a.date = b.date ∧ a.time = b.time := by
  unfold canonKey
  constructor
  · intro h
    have h' := congrArg ofLex h
    have h1 := congrArg Prod.fst h'
    have h2 := congrArg Prod.snd h'
    have h2' := congrArg ofLex h2
    refine ⟨h1, ?_, ?_⟩
    · exact congrArg (OrderDual.ofDual ∘ Prod.fst) h2'
    · exact congrArg (OrderDual.ofDual ∘ Prod.snd) h2'
  · rintro ⟨h1, h2, h3⟩
    rw [h1, h2, h3]

theorem showLE_iff (a b : Show) : (showLT b a = false) ↔ CanonLE a b := by
  rw [stdSort_rel_iff canonKey showLT showLT_iff_key, le_iff_lt_or_eq,
    canonKey_lt_iff, canonKey_eq_iff, CanonLE]

theorem pairBefore_iff (p q : Str × Str) : toLex p < toLex q ↔ PairBefore p q := by
  rw [Prod.Lex.lt_iff, PairBefore]

/-! ### Facts about the candidate-collection phase -/

theorem containsSubstr_empty_key (s : Str) : containsSubstr s [] = true := by
  refine List.any_eq_true.mpr ⟨0, ?_, ?_⟩ <;> simp

theorem filterIds_eq_filter (showsByKey : List Str) (key : Str) (id : List Nat) :
    filterIds showsByKey key id = id.filter fun i => containsSubstr (strAt showsByKey i) key := by
  rw [filterIds]
  split_ifs with h
  · rw [List.isEmpty_iff] at h
    subst h
    exact (List.filter_eq_self.mpr fun a _ => containsSubstr_empty_key _).symm
  · rfl

/-- The candidate list of query against any data snapshot whose three
parallel search vectors have the record count as their length: a single
pass over snapshot order keeping the ids that satisfy all three
case-folded substring conditions. -/
theorem queryCandidates_eq_filter_of_len (d : Data)
    (h1 : d.showsByChannel.length = d.shows.length)
    (h2 : d.showsByTopic.length = d.shows.length)
    (h3 : d.showsByTitle.length = d.shows.length)
    (channel topic title : Str) :
    queryCandidates d channel topic title =
      (List.range d.shows.length).filter fun i =>
        containsSubstr (strAt d.showsByChannel i) (strToLower channel) &&
          (containsSubstr (strAt d.showsByTopic i) (strToLower topic) &&
            containsSubstr (strAt d.showsByTitle i) (strToLower title)) := by
  rw [queryCandidates]
  by_cases hch : (strToLower channel).isEmpty
  · by_cases htp : (strToLower topic).isEmpty
    · by_cases hti : (strToLower title).isEmpty
      · rw [if_neg (by simp [hch]), if_neg (by simp [htp]), if_neg (by simp [hti])]
        have hch' := List.isEmpty_iff.mp hch
        have htp' := List.isEmpty_iff.mp htp
        have hti' := List.isEmpty_iff.mp hti
        refine (List.filter_eq_self.mpr fun a _ => ?_).symm
        rw [hch', htp', hti']
        simp [containsSubstr_empty_key]
      · rw [if_neg (by simp [hch]), if_neg (by simp [htp]), if_pos (by simp [hti]),
          collect, filterIds_eq_filter, filterIds_eq_filter, List.filter_filter,
          List.filter_filter, h3]
        have hch' := List.isEmpty_iff.mp hch
        have htp' := List.isEmpty_iff.mp htp
        refine List.filter_congr fun i _ => ?_
        rw [hch', htp']
        simp only [containsSubstr_empty_key]
        cases containsSubstr (strAt d.showsByTitle i) (strToLower title) <;> rfl
    · rw [if_neg (by simp [hch]), if_pos (by simp [htp]),
        collect, filterIds_eq_filter, filterIds_eq_filter, List.filter_filter,
        List.filter_filter, h2]
      have hch' := List.isEmpty_iff.mp hch
      refine List.filter_congr fun i _ => ?_
      rw [hch']
      simp only [containsSubstr_empty_key]
      cases containsSubstr (strAt d.showsByTopic i) (strToLower topic) <;>
        cases containsSubstr (strAt d.showsByTitle i) (strToLower title) <;> rfl
  · rw [if_pos (by simp [hch]), collect, filterIds_eq_filter, filterIds_eq_filter,
      List.filter_filter, List.filter_filter, h1]
    refine List.filter_congr fun i _ => ?_
    cases containsSubstr (strAt d.showsByChannel i) (strToLower channel) <;>
      cases containsSubstr (strAt d.showsByTopic i) (strToLower topic) <;>
        cases containsSubstr (strAt d.showsByTitle i) (strToLower title) <;> rfl

theorem commit_byChannel_length (records : List Show) :
    (commit records).showsByChannel.length = (commit records).shows.length := by
  rw [commit_byChannel, List.length_map]

theorem commit_byTopic_length (records : List Show) :
    (commit records).showsByTopic.length = (commit records).shows.length := by
  rw [commit_byTopic, List.length_map]

theorem commit_byTitle_length (records : List Show) :
    (commit records).showsByTitle.length = (commit records).shows.length := by
  rw [commit_byTitle, List.length_map]

theorem queryCandidates_eq_filter (records : List Show) (channel topic title : Str) :
    queryCandidates (commit records) channel topic title =
      (List.range (commit records).shows.length).filter fun i =>
        containsSubstr (strAt (commit records).showsByChannel i) (strToLower channel) &&
          (containsSubstr (strAt (commit records).showsByTopic i) (strToLower topic) &&
            containsSubstr (strAt (commit records).showsByTitle i) (strToLower title)) :=
  queryCandidates_eq_filter_of_len _ (commit_byChannel_length records)
    (commit_byTopic_length records) (commit_byTitle_length records) channel topic title

/-- Whatever sort the query applies, the result is a permutation of the
candidate list. -/
theorem query_perm_candidates (d : Data) (channel topic title : Str)
    (sortColumn : SortColumn) (sortOrder : SortOrder) :
    (query d channel topic title sortColumn sortOrder).Perm
      (queryCandidates d channel topic title) := by
  cases sortColumn <;> cases sortOrder <;>
    first
      | exact List.Perm.refl _
      | exact stdSort_perm _ _

/-! ### Pointwise correspondence of the parallel vectors -/

theorem strAt_map (f : Show → Str) (hf : f default = []) (shows : List Show) (i : Nat) :
    strAt (shows.map f) i = f (showAt shows i) := by
  rw [strAt, showAt, List.getD_eq_getElem?_getD, List.getD_eq_getElem?_getD, List.getElem?_map]
  cases shows[i]? with
  | none => simpa using hf.symm
  | some s => rfl

theorem showAt_eq_getElem (shows : List Show) (m : Nat) (hm : m < shows.length) :
    showAt shows m = shows[m] := by
  rw [showAt, List.getD_eq_getElem?_getD, List.getElem?_eq_getElem hm]
  rfl

theorem commit_length (records : List Show) :
    (commit records).shows.length = records.length :=
  (commit_perm records).length_eq

/-! ### The partial-merge step -/

theorem mergeRecord_eq (l : List Show) (r : Show) :
    mergeRecord l r =
      if l.any fun o => sameKey r o then l.set (l.findIdx fun o => sameKey r o) r
      else l ++ [r] := by
  induction l with
  | nil => rfl
  | cons o os ih =>
    rw [mergeRecord]
    by_cases h : sameKey r o
    · rw [if_pos h, if_pos (by simp [h]), List.findIdx_cons]
      simp [h]
    · rw [if_neg h, ih]
      by_cases h2 : os.any fun o => sameKey r o
      · rw [if_pos h2, if_pos (by simp [List.any_cons, h2]), List.findIdx_cons]
        simp [h, h2]
      · rw [if_neg h2, if_neg (by simp [List.any_cons, h, h2])]
        rfl

/-! ### Claim theorems -/

/-- C3: committing a transaction sorts the accumulated records by channel
ascending (case-sensitive original value) with ties broken by air date
then air time descending, and rebuilds all derived structures from the
sorted sequence: the three case-folded search vectors are its pointwise
case foldings, the channel vector holds exactly the channel values, and
the topic vector holds exactly the (case-folded channel, topic) pairs. -/
theorem commit_canonical_order (records : List Show) :
    (commit records).shows.Perm records ∧
    (commit records).shows.Pairwise CanonLE ∧
    (commit records).showsByChannel = ((commit records).shows.map fun s => strToLower s.channel) ∧
    (commit records).showsByTopic = ((commit records).shows.map fun s => strToLower s.topic) ∧
    (commit records).showsByTitle = ((commit records).shows.map fun s => strToLower s.title) ∧
    (∀ c, c ∈ (commit records).channels ↔ c ∈ (commit records).shows.map Show.channel) ∧
    (∀ p, p ∈ (commit records).topics ↔
      p ∈ (commit records).shows.map fun s => (strToLower s.channel, s.topic)) := by
  refine ⟨commit_perm records, ?_, commit_byChannel records, commit_byTopic records,
    commit_byTitle records, commit_channels_mem records, commit_topics_mem records⟩
  exact (commit_sorted records).imp fun h => (showLE_iff _ _).mp h

/-- C8: after indexing, the three case-folded search vectors have the same
length as the record sequence and their entry at each position is the case
folding of the corresponding record field; the channel vector is strictly
sorted without duplicates, and so is the (case-folded channel, topic) pair
vector under the lexicographic pair order. -/
theorem commit_index_invariants (records : List Show) :
    (commit records).showsByChannel.length = (commit records).shows.length ∧
    (commit records).showsByTopic.length = (commit records).shows.length ∧
    (commit records).showsByTitle.length = (commit records).shows.length ∧
    (∀ i, strAt (commit records).showsByChannel i = strToLower (showAt (commit records).shows i).channel) ∧
    (∀ i, strAt (commit records).showsByTopic i = strToLower (showAt (commit records).shows i).topic) ∧
    (∀ i, strAt (commit records).showsByTitle i = strToLower (showAt (commit records).shows i).title) ∧
    (commit records).channels.Pairwise (· < ·) ∧
    (commit records).channels.Nodup ∧
    (commit records).topics.Pairwise PairBefore ∧
    (commit records).topics.Nodup := by
  refine ⟨commit_byChannel_length records, commit_byTopic_length records,
    commit_byTitle_length records, ?_, ?_, ?_, commit_channels_pairwise records, ?_, ?_, ?_⟩
  · intro i
    rw [commit_byChannel, strAt_map _ rfl]
  · intro i
    rw [commit_byTopic, strAt_map _ rfl]
  · intro i
    rw [commit_byTitle, strAt_map _ rfl]
  · exact (commit_channels_pairwise records).imp fun h => ne_of_lt h
  · exact (commit_topics_pairwise records).imp fun h => (pairBefore_iff _ _).mp h
  · refine (commit_topics_pairwise records).imp fun h => ?_
    intro heq
    rw [heq] at h
    exact lt_irrefl _ h

/-- C5: the candidate phase of query case-folds the three filters and is
equivalent to one pass over the whole id range in snapshot order keeping
exactly the ids whose three case-folded fields contain the respective
case-folded filters as substrings; an empty filter excludes nothing, and
the priority choice of the primary filter does not change the result. -/
theorem query_filter_semantics (records : List Show) (channel topic title : Str) :
    queryCandidates (commit records) channel topic title =
      (List.range (commit records).shows.length).filter fun i =>
        containsSubstr (strAt (commit records).showsByChannel i) (strToLower channel) &&
          (containsSubstr (strAt (commit records).showsByTopic i) (strToLower topic) &&
            containsSubstr (strAt (commit records).showsByTitle i) (strToLower title)) :=
  queryCandidates_eq_filter records channel topic title

/-- C6: the comparator used by query for the channel, topic and title
columns orders by the case-folded field value ascending or descending per
the sort order, with the air date/time descending tie-break applied in the
same direction in both cases; the comparator for the date, time and
duration columns orders by the field alone with no secondary key. -/
theorem query_sort_comparators (showsByKey : List Str) (shows : List Show)
    (member : Show → Nat) (l r : Nat) :
    (chronoLT showsByKey .SortAscending shows l r = true ↔
      strAt showsByKey l < strAt showsByKey r ∨
        (strAt showsByKey l = strAt showsByKey r ∧
          ((showAt shows r).date < (showAt shows l).date ∨
            ((showAt shows r).date = (showAt shows l).date ∧
              (showAt shows r).time < (showAt shows l).time)))) ∧
    (chronoLT showsByKey .SortDescending shows l r = true ↔
      strAt showsByKey r < strAt showsByKey l ∨
        (strAt showsByKey r = strAt showsByKey l ∧
          ((showAt shows r).date < (showAt shows l).date ∨
            ((showAt shows r).date = (showAt shows l).date ∧
              (showAt shows r).time < (showAt shows l).time)))) ∧
    (memberLT member .SortAscending shows l r = true ↔
      member (showAt shows l) < member (showAt shows r)) ∧
    (memberLT member .SortDescending shows l r = true ↔
      member (showAt shows r) < member (showAt shows l)) := by
  refine ⟨?_, ?_, ?_, ?_⟩
  · rw [chronoLT, tieLT_iff]
  · rw [chronoLT, tieLT_iff]
  · simp [memberLT]
  · simp [memberLT]

/-- C10: every id produced by query against a committed data snapshot is a
valid position in its record sequence, appears at most once, and looking
it up through the bounds-checked accessor always succeeds. -/
theorem query_ids_safe (records : List Show) (channel topic title : Str)
    (sortColumn : SortColumn) (sortOrder : SortOrder) :
    (∀ i ∈ query (commit records) channel topic title sortColumn sortOrder,
      i < (commit records).shows.length) ∧
    (query (commit records) channel topic title sortColumn sortOrder).Nodup ∧
    (∀ i ∈ query (commit records) channel topic title sortColumn sortOrder,
      (showRecord (commit records) i).isSome) := by
  have hperm := query_perm_candidates (commit records) channel topic title sortColumn sortOrder
  have hcand := queryCandidates_eq_filter records channel topic title
  have hmem : ∀ i ∈ query (commit records) channel topic title sortColumn sortOrder,
      i < (commit records).shows.length := by
    intro i hi
    have h1 := hperm.mem_iff.mp hi
    rw [hcand] at h1
    exact List.mem_range.mp (List.mem_of_mem_filter h1)
  refine ⟨hmem, ?_, ?_⟩
  · have hnd : (queryCandidates (commit records) channel topic title).Nodup := by
      rw [hcand]
      exact (List.nodup_range _).filter _
    exact hperm.symm.nodup hnd
  · intro i hi
    rw [showRecord, List.getElem?_eq_getElem (hmem i hi)]
    rfl

/-- C7: merging one record into a partial-update transaction replaces the
first record with an equal (title, url, channel, topic) key in place when
one exists, keeping the committed record count, and otherwise appends it
to the pre-commit buffer, growing the committed record count by one. -/
theorem partial_merge_semantics (d : Data) (r : Show) :
    PartialUpdateRun d [r] =
      (if d.shows.any fun o => sameKey r o then
        d.shows.set (d.shows.findIdx fun o => sameKey r o) r
      else d.shows ++ [r]) ∧
    (commit (PartialUpdateRun d [r])).shows.length =
      (if d.shows.any fun o => sameKey r o then d.shows.length else d.shows.length + 1) := by
  have h0 : PartialUpdateRun d [r] = mergeRecord d.shows r := rfl
  constructor
  · rw [h0, mergeRecord_eq]
  · rw [h0, commit_length, mergeRecord_eq]
    split_ifs
    · rw [List.length_set]
    · rw [List.length_append]
      rfl

/-- C2 counterexample: for an accumulated record list that is not already
in canonical order, a successful run hands Transaction::save the record
list as accumulated, which differs from the committed (sorted) record
list, so save is not called with the committed Catalog's records. -/
theorem update_save_order_counterexample :
    (updateRun [showLowerB, showLowerA] true true).saveArg ≠
      some (commit [showLowerB, showLowerA]).shows := by
  decide

/-- C2 amended: on a successful parse the worker first calls save with the
transaction's accumulated pre-commit record list (a permutation of, but
not necessarily equal to, the committed list), then commits and yields the
new data exactly when save succeeds, yielding a failure result otherwise. -/
theorem update_save_then_commit (records : List Show) (saveOk : Bool) :
    (updateRun records true saveOk).saveArg = some records ∧
    (updateRun records true saveOk).result =
      (if saveOk then some (commit records) else none) ∧
    (commit records).shows.Perm records :=
  ⟨rfl, rfl, commit_perm records⟩

/-- C4: when the parse fails, or the parse succeeds but the save fails,
the delivered result is null, so the store emits exactly the
failedToUpdate signal with the fixed reason string and keeps its current
data snapshot unchanged. -/
theorem update_failure_handling (s : Store) (records : List Show) (saveOk : Bool) :
    updateReady s (updateRun records false saveOk).result =
      ({ s with inFlight := none }, [Signal.failedToUpdate "Failed to parse or save data."]) ∧
    updateReady s (updateRun records true false).result =
      ({ s with inFlight := none }, [Signal.failedToUpdate "Failed to parse or save data."]) ∧
    (updateReady s (updateRun records false saveOk).result).1.catalog = s.catalog ∧
    (updateReady s (updateRun records true false).result).1.catalog = s.catalog :=
  ⟨rfl, rfl, rfl, rfl⟩

/-- C9: while an update is in flight, both request entry points return the
store unchanged, emit no signal and schedule nothing, and the eventual
completion of the in-flight job is unaffected. -/
theorem request_while_updating_noop (cat : Data) (job other : UpdateJob)
    (incoming : List Show) (parseOk saveOk : Bool) :
    requestUpdate { catalog := cat, inFlight := some job } other =
      ({ catalog := cat, inFlight := some job }, []) ∧
    requestFullUpdate { catalog := cat, inFlight := some job } incoming parseOk saveOk =
      ({ catalog := cat, inFlight := some job }, []) ∧
    requestPartialUpdate { catalog := cat, inFlight := some job } incoming parseOk saveOk =
      ({ catalog := cat, inFlight := some job }, []) ∧
    completeInFlight
        (requestFullUpdate { catalog := cat, inFlight := some job } incoming parseOk saveOk).1 =
      completeInFlight { catalog := cat, inFlight := some job } ∧
    completeInFlight
        (requestPartialUpdate { catalog := cat, inFlight := some job } incoming parseOk saveOk).1 =
      completeInFlight { catalog := cat, inFlight := some job } :=
  ⟨rfl, rfl, rfl, rfl, rfl⟩

/-- C1 counterexample: a freshly built catalog over channels B and a is in
canonical case-sensitive order (B before a), and the empty query with
ascending channel sort returns the identity permutation; but actually
applying the ascending case-folded channel comparator reorders the ids
(folded b after folded a), so the skipped sort is not a no-op and the two
results differ. -/
theorem channel_ascending_noop_counterexample :
    chronologicalSort (commit [showUpperB, showLowerA]).showsByChannel .SortAscending
        (commit [showUpperB, showLowerA]).shows
        (query (commit [showUpperB, showLowerA]) [] [] [] .SortChannel .SortAscending) ≠
      query (commit [showUpperB, showLowerA]) [] [] [] .SortChannel .SortAscending := by
  decide

/-- C1 amended: the empty query with ascending channel sort always returns
the identity permutation over a freshly built catalog, the sort being
skipped; and when case folding leaves every record channel unchanged, the
canonical storage order also satisfies the ascending case-folded channel
comparator, so actually performing the skipped sort returns the identity
permutation as well. -/
theorem channel_ascending_identity (records : List Show)
    (hfold : ∀ s ∈ records, strToLower s.channel = s.channel) :
    query (commit records) [] [] [] .SortChannel .SortAscending =
      List.range (commit records).shows.length ∧
    chronologicalSort (commit records).showsByChannel .SortAscending (commit records).shows
        (List.range (commit records).shows.length) =
      List.range (commit records).shows.length := by
  refine ⟨rfl, ?_⟩
  have hkey : ∀ m, m < (commit records).shows.length →
      strAt (commit records).showsByChannel m = (showAt (commit records).shows m).channel := by
    intro m hm
    rw [commit_byChannel, strAt_map _ rfl, showAt_eq_getElem _ _ hm]
    exact hfold _ ((commit_perm records).mem_iff.mp (List.getElem_mem hm))
  have hsorted := List.pairwise_iff_getElem.mp (commit_sorted records)
  apply stdSort_eq_of_sorted
  rw [List.Sorted, List.pairwise_iff_getElem]
  intro i j hi hj hij
  rw [List.getElem_range, List.getElem_range]
  have hi' : i < (commit records).shows.length := by simpa using hi
  have hj' : j < (commit records).shows.length := by simpa using hj
  have heq : chronoLT (commit records).showsByChannel .SortAscending (commit records).shows j i =
      showLT (showAt (commit records).shows j) (showAt (commit records).shows i) := by
    rw [chronoLT, showLT, hkey i hi', hkey j hj']
  rw [heq, showAt_eq_getElem _ _ hi', showAt_eq_getElem _ _ hj']
  exact hsorted i j hi' hj' hij

/-- C1 amended witness: a concrete catalog whose channels are already
case-folded, at which both conjuncts of the amended claim evaluate. -/
theorem channel_ascending_identity_witness :
    (∀ s ∈ [showLowerA, showLowerB], strToLower s.channel = s.channel) ∧
    (query (commit [showLowerA, showLowerB]) [] [] [] .SortChannel .SortAscending =
        List.range (commit [showLowerA, showLowerB]).shows.length ∧
      chronologicalSort (commit [showLowerA, showLowerB]).showsByChannel .SortAscending
          (commit [showLowerA, showLowerB]).shows
          (List.range (commit [showLowerA, showLowerB]).shows.length) =
        List.range (commit [showLowerA, showLowerB]).shows.length) :=
  ⟨by decide, channel_ascending_identity [showLowerA, showLowerB] (by decide)⟩

end QMediathekView
